import Mathlib

/-!
# audiobookconverter: status reconciliation, traversal and relocation

A shallow embedding of `main.go`.  Go strings are modelled by `String`, the
global `books` map by a function `String → Option Book`, and the pieces of the
Go standard library that the program calls (`path/filepath`, `strings`) are
transliterated for a Unix host.

* `filepath.Walk` runs over a tree `FsNode` that records what `os.Lstat` and
  the directory listings answer, failures included.
* The calls that change the file system (`os.MkdirAll`, `os.Create`,
  `io.Copy`, `os.Rename`, `os.RemoveAll`) act on a `FileSystem`, a map from
  paths to file contents and a set of directories.  Which calls fail, what a
  directory lists, the clock and the two external commands are inputs,
  collected in `Env`.
* The order in which `range` visits the keys of the map is an input of
  `processBooks`.
-/

namespace AudiobookConverter

/-! ## `path/filepath` and `strings` (Unix) -/

namespace strings

/-- Split a character list at every occurrence of `sep`: Go `strings.Split`
with a one-byte separator. -/
def splitChars (sep : Char) : List Char → List (List Char)
  | [] => [[]]
  | c :: cs =>
    match splitChars sep cs with
    | [] => [[c]]
    | seg :: segs => if c = sep then [] :: seg :: segs else (c :: seg) :: segs

/-- Concatenate with `sep` between the pieces: Go `strings.Join` with a
one-byte separator. -/
def joinChars (sep : Char) : List (List Char) → List Char
  | [] => []
  | [e] => e
  | e :: es => e ++ sep :: joinChars sep es

/-- Go `strings.Count(s, string(sep))`. -/
def Count (s : String) (sep : Char) : Nat := s.data.count sep

/-- Go `strings.ToLower`, on the ASCII letters.  Go lowers every letter of
Unicode; no character outside ASCII lowers to one of `.`, `e`, `p`, `u`, `b`,
so the test for the suffix `.epub` below gives the same answer. -/
def ToLower (s : String) : String := String.mk (s.data.map Char.toLower)

/-- Go `strings.HasSuffix`. -/
def HasSuffix (s suffix : String) : Bool := suffix.data.isSuffixOf s.data

end strings

namespace filepath

/-- Path separator of a Unix host, `os.PathSeparator`. -/
def Separator : Char := '/'

/-- One element of the path processed by `Clean`.  The stack holds the
elements written to the output buffer so far, innermost first; elements equal
to `..` on the stack are the leading `..` prefix that cannot be backtracked
over (the `dotdot` mark of the Go code). -/
def cleanStep (rooted : Bool) (stack : List (List Char)) (elem : List Char) :
    List (List Char) :=
  if elem = [] then stack
  else if elem = ['.'] then stack
  else if elem = ['.', '.'] then
    match stack with
    | [] => if rooted then [] else [['.', '.']]
    | top :: rest =>
      if top = ['.', '.'] then (if rooted then stack else elem :: stack) else rest
  else elem :: stack

/-- Character-list version of `filepath.Clean`. -/
def cleanChars (path : List Char) : List Char :=
  if path = [] then ['.']
  else
    let rooted : Bool := path.head? = some Separator
    let stack := (strings.splitChars Separator path).foldl (cleanStep rooted) []
    let out := (if rooted then [Separator] else []) ++ strings.joinChars Separator stack.reverse
    if out = [] then ['.'] else out

/-- Go `filepath.Clean`. -/
def Clean (path : String) : String := String.mk (cleanChars path.data)

/-- The part of the path up to and including its last separator. -/
def dirPart (path : List Char) : List Char :=
  (path.reverse.dropWhile (fun c => c ≠ Separator)).reverse

/-- Character-list version of `filepath.Dir`. -/
def dirChars (path : List Char) : List Char := cleanChars (dirPart path)

/-- Go `filepath.Dir`. -/
def Dir (path : String) : String := String.mk (dirChars path.data)

/-- Character-list version of `filepath.Base`. -/
def baseChars (path : List Char) : List Char :=
  if path = [] then ['.']
  else
    let stripped := (path.reverse.dropWhile (fun c => c = Separator)).reverse
    let last := (stripped.reverse.takeWhile (fun c => c ≠ Separator)).reverse
    if last = [] then [Separator] else last

/-- Go `filepath.Base`. -/
def Base (path : String) : String := String.mk (baseChars path.data)

/-- Go `filepath.Join` for two elements. -/
def Join (a b : String) : String :=
  if a ≠ "" then Clean (String.mk (a.data ++ Separator :: b.data))
  else if b ≠ "" then Clean b
  else ""

/-- Scan of `filepath.Ext` over the reversed path: `acc` is the part already
passed, in original order. -/
def extScan : List Char → List Char → List Char
  | [], _ => []
  | c :: rest, acc =>
    if c = Separator then []
    else if c = '.' then c :: acc
    else extScan rest (c :: acc)

/-- Go `filepath.Ext`. -/
def Ext (path : String) : String := String.mk (extScan path.data.reverse [])

end filepath

/-! ## Data model -/

/-- Go `ProcessingState` (an `iota` enumeration, `Error` is the zero value). -/
inductive ProcessingState where
  | Error
  | New
  | InProcess
  | Done
  deriving DecidableEq

/-- Go `Book`.  `TimeRemaining` is a `time.Duration`, an integer count. -/
structure Book where
  EpubPath : String
  BookName : String
  SourceFolder : String
  TargetFolder : String
  Status : ProcessingState
  TimeRemaining : Int
  Progress : Int
  deriving DecidableEq

/-- The zero value of `Book`, what `var bookEntry Book` declares. -/
def Book.zero : Book :=
  { EpubPath := "", BookName := "", SourceFolder := "", TargetFolder := "",
    Status := ProcessingState.Error, TimeRemaining := 0, Progress := 0 }

/-- The global `books`, a `map[string]Book`. -/
abbrev Registry := String → Option Book

/-- The map `make(map[string]Book)` starts as. -/
def emptyRegistry : Registry := fun _ => none

/-! ## `parseAndAddBooks` -/

/-- The entry that one iteration of the loop of `parseAndAddBooks` stores under
`filepath.Base epub`, given what the map held there. -/
def bookEntryFor (areBooksInImportFolder : Bool) (found : Option Book) (epub : String) :
    Book :=
  let basename := filepath.Base epub
  let bookEntry : Book :=
    match found with
    | some existing => existing
    | none => { Book.zero with BookName := basename, EpubPath := epub }
  let bookEntry : Book :=
    if areBooksInImportFolder then { bookEntry with SourceFolder := filepath.Dir epub }
    else { bookEntry with TargetFolder := filepath.Dir epub }
  let bookEntry : Book := { bookEntry with Status := ProcessingState.Error }
  let bookEntry : Book :=
    if bookEntry.SourceFolder ≠ "" then { bookEntry with Status := ProcessingState.New }
    else bookEntry
  let bookEntry : Book :=
    if bookEntry.TargetFolder ≠ "" then { bookEntry with Status := ProcessingState.Done }
    else bookEntry
  bookEntry

/-- One iteration of the loop of `parseAndAddBooks`. -/
def parseAndAddBook (areBooksInImportFolder : Bool) (booksMap : Registry) (epub : String) :
    Registry :=
  Function.update booksMap (filepath.Base epub)
    (some (bookEntryFor areBooksInImportFolder (booksMap (filepath.Base epub)) epub))

/-- Go `parseAndAddBooks`: the loop over `epubs`, in order. -/
def parseAndAddBooks (booksMap : Registry) (epubs : List String)
    (areBooksInImportFolder : Bool) : Registry :=
  epubs.foldl (parseAndAddBook areBooksInImportFolder) booksMap

/-- The two merges of one pass of the loop of `main`: the input scan as source,
then the output scan as target.  (`processBooks` does not write to the map.) -/
def reconcile (booksMap : Registry) (inputScan outputScan : List String) : Registry :=
  parseAndAddBooks (parseAndAddBooks booksMap inputScan true) outputScan false

/-- The map after the given earlier passes of the loop of `main`, each with
its input scan and its output scan, starting from the empty map. -/
def afterCycles (earlier : List (List String × List String)) : Registry :=
  earlier.foldl (fun booksMap scans => reconcile booksMap scans.1 scans.2) emptyRegistry

/-! ## `filepath.Walk` and `traverseAndFindEpub` -/

/-- What a walk meets at a path: the answer of `os.Lstat` and, for a
directory, of reading its entries (in the order `readDirNames` yields them). -/
inductive FsNode where
  | file (name : String)
  | dir (name : String) (children : List FsNode)
  | unreadableDir (name : String)
  | lstatFails (name : String)

/-- Name of the entry. -/
def FsNode.name : FsNode → String
  | FsNode.file name => name
  | FsNode.dir name _ => name
  | FsNode.unreadableDir name => name
  | FsNode.lstatFails name => name

/-- Go `info.IsDir()`. -/
def FsNode.IsDir : FsNode → Bool
  | FsNode.file _ => false
  | FsNode.dir _ _ => true
  | FsNode.unreadableDir _ => true
  | FsNode.lstatFails _ => false

/-- The non-nil errors a `WalkFunc` can return: the sentinel `filepath.SkipDir`
and any other error. -/
inductive WalkError where
  | SkipDir
  | failure
  deriving DecidableEq

/-- A `filepath.WalkFunc` that owns a slice of paths: it gets the path, the
entry (`info`), whether an error is passed in, and the slice. -/
abbrev WalkFunc := String → FsNode → Bool → List String → List String × Option WalkError

/-- The closure `traverse` of `traverseAndFindEpub`; `epubFiles` is the slice
it appends to. -/
def traverse (TRAVERSAL_MAX_DEPTH : Int) : WalkFunc :=
  fun currentPath info err epubFiles =>
    if err then (epubFiles, some WalkError.failure)
    else
      let currentDepth : Int := (strings.Count currentPath filepath.Separator : Nat)
      if TRAVERSAL_MAX_DEPTH ≠ -1 ∧ currentDepth > TRAVERSAL_MAX_DEPTH then
        (epubFiles, some WalkError.SkipDir)
      else if !info.IsDir ∧ strings.HasSuffix (strings.ToLower info.name) ".epub" then
        (epubFiles ++ [currentPath], none)
      else (epubFiles, none)

mutual
/-- Go `filepath.walk`, for an entry whose `Lstat` succeeded, and the call of
the `WalkFunc` for one whose `Lstat` failed. -/
def walk (walkFn : WalkFunc) (path : String) :
    FsNode → List String → List String × Option WalkError
  | FsNode.file name, acc => walkFn path (FsNode.file name) false acc
  | FsNode.lstatFails name, acc => walkFn path (FsNode.lstatFails name) true acc
  | FsNode.unreadableDir name, acc => walkFn path (FsNode.unreadableDir name) true acc
  | FsNode.dir name children, acc =>
    match walkFn path (FsNode.dir name children) false acc with
    | (acc1, some err1) => (acc1, some err1)
    | (acc1, none) => walkEntries walkFn path children acc1
/-- The loop of `filepath.walk` over the entries of a directory. -/
def walkEntries (walkFn : WalkFunc) (path : String) :
    List FsNode → List String → List String × Option WalkError
  | [], acc => (acc, none)
  | child :: rest, acc =>
    match walk walkFn (filepath.Join path child.name) child acc with
    | (acc1, none) => walkEntries walkFn path rest acc1
    | (acc1, some WalkError.SkipDir) =>
      match child with
      | FsNode.file _ => (acc1, some WalkError.SkipDir)
      | _ => walkEntries walkFn path rest acc1
    | (acc1, some WalkError.failure) => (acc1, some WalkError.failure)
end

/-- Go `filepath.Walk`: `SkipDir` from the root is not an error. -/
def Walk (root : String) (tree : FsNode) (walkFn : WalkFunc) (acc : List String) :
    List String × Option WalkError :=
  match walk walkFn root tree acc with
  | (acc1, some WalkError.SkipDir) => (acc1, none)
  | result => result

/-- Go `traverseAndFindEpub`, on the tree found at `path`; `none` is the
error return. -/
def traverseAndFindEpub (TRAVERSAL_MAX_DEPTH : Int) (path : String) (tree : FsNode) :
    Option (List String) :=
  match Walk path tree (traverse TRAVERSAL_MAX_DEPTH) [] with
  | (_, some _) => none
  | (epubFiles, none) => some epubFiles

/-! ## The file system and the external commands -/

/-- A state of the file system: the regular files by path, with their bytes,
and the paths that are directories. -/
structure FileSystem where
  files : String → Option (List Nat)
  dirs : String → Bool

/-- What the program cannot decide: which calls of the operating system fail,
what a directory lists, what the clock shows and what the two external
commands do. -/
structure Env where
  /-- Result of `time.Now().Format("2006-01-02_15_04_05")` at the given call. -/
  now : Nat → String
  /-- Whether `os.Open` of an existing path fails. -/
  openFails : String → Bool
  /-- Whether `os.MkdirAll` fails. -/
  mkdirFails : String → Bool
  /-- Whether `os.Create` fails. -/
  createFails : String → Bool
  /-- Whether `io.Copy` into the given destination breaks off, and after how
  many bytes. -/
  copyFault : String → Option Nat
  /-- Names that `os.ReadDir` returns for a directory, `none` for an error. -/
  readDir : FileSystem → String → Option (List String)
  /-- Whether `cmd.Start` of `audiblez` in the given directory fails. -/
  startFails : String → Bool
  /-- What `audiblez -v VOICE book.epub`, run in the given directory, leaves
  behind, and whether it exited with status zero. -/
  audiblez : String → String → FileSystem → FileSystem × Bool
  /-- What the `ffmpeg` shell loop, run in the given directory, leaves behind,
  and whether it ended without error. -/
  ffmpeg : String → FileSystem → FileSystem × Bool

/-- The package-level variables set by `performChecks`. -/
structure Config where
  VOICE : String
  FOLDER_IN : String
  FOLDER_OUT : String
  TRAVERSAL_MAX_DEPTH : Int

/-- The values the package-level variables are declared with. -/
def Config.default : Config :=
  { VOICE := "bm_lewis", FOLDER_IN := "", FOLDER_OUT := "", TRAVERSAL_MAX_DEPTH := 3 }

namespace os

/-- Whether `q` is `path` or lies below it. -/
def isUnder (path q : String) : Bool :=
  q = path || (path.data ++ [filepath.Separator]).isPrefixOf q.data

/-- The path and every directory above it that `os.MkdirAll` makes sure of:
the prefixes of the path that end before a separator, and the path. -/
def mkdirTargets (path : String) : List String :=
  ((List.range path.data.length).filter
      (fun i => 0 < i ∧ path.data.get? i = some filepath.Separator)).map
    (fun i => String.mk (path.data.take i)) ++ [path]

/-- Go `os.MkdirAll`: `none` when it fails. -/
def MkdirAll (env : Env) (fs : FileSystem) (path : String) : Option FileSystem :=
  if env.mkdirFails path ∨ (fs.files path).isSome then none
  else some { fs with dirs := fun q => fs.dirs q || decide (q ∈ mkdirTargets path) }

/-- Go `os.Create`: an empty regular file at `path`, `none` when it fails. -/
def Create (env : Env) (fs : FileSystem) (path : String) : Option FileSystem :=
  if env.createFails path ∨ fs.dirs path then none
  else some { fs with files := Function.update fs.files path (some []) }

/-- Go `os.Open`: whether the path can be opened for reading. -/
def Open (env : Env) (fs : FileSystem) (path : String) : Bool :=
  !env.openFails path && ((fs.files path).isSome || fs.dirs path)

/-- Go `io.Copy(destination, source)` for two open files: the state after it
and whether it returned without error.  Reading a directory is an error. -/
def Copy (env : Env) (fs : FileSystem) (destination source : String) : FileSystem × Bool :=
  match fs.files source with
  | none => (fs, false)
  | some bytes =>
    match env.copyFault destination with
    | some n => ({ fs with files := Function.update fs.files destination (some (bytes.take n)) }, false)
    | none => ({ fs with files := Function.update fs.files destination (some bytes) }, true)

/-- Go `os.Rename` of a regular file; nothing happens when it fails. -/
def Rename (fs : FileSystem) (oldpath newpath : String) : FileSystem :=
  match fs.files oldpath with
  | none => fs
  | some bytes =>
    if fs.dirs newpath then fs
    else { fs with files := Function.update (Function.update fs.files oldpath none) newpath (some bytes) }

/-- Go `os.RemoveAll`: the path and everything below it is gone. -/
def RemoveAll (fs : FileSystem) (path : String) : FileSystem :=
  { files := fun q => if isUnder path q then none else fs.files q
    dirs := fun q => if isUnder path q then false else fs.dirs q }

end os

/-! ## `moveFiles` -/

/-- The loop of `moveFiles` over the entries of the source directory: the
state it leaves and whether it returned an error. -/
def moveFilesLoop (env : Env) (srcDir destDir : String) (excludeExtensions : List String) :
    List String → FileSystem → FileSystem × Bool
  | [], fs => (fs, false)
  | file :: files, fs =>
    let srcPath := filepath.Join srcDir file
    if excludeExtensions.contains (filepath.Ext srcPath) then
      moveFilesLoop env srcDir destDir excludeExtensions files fs
    else
      let destPath := filepath.Join destDir file
      match os.Create env fs destPath with
      | none => (fs, true)
      | some fs1 =>
        if os.Open env fs1 srcPath then
          moveFilesLoop env srcDir destDir excludeExtensions files (os.Copy env fs1 destPath srcPath).1
        else (fs1, true)

/-- Go `moveFiles`: the state it leaves and whether it returned an error. -/
def moveFiles (env : Env) (fs : FileSystem) (srcDir destDir : String)
    (excludeExtensions : List String) : FileSystem × Bool :=
  match env.readDir fs srcDir with
  | none => (fs, true)
  | some files =>
    match os.MkdirAll env fs destDir with
    | none => (fs, true)
    | some fs1 => moveFilesLoop env srcDir destDir excludeExtensions files fs1

/-! ## `runAudiblezOnEpub` and `processBooks` -/

/-- The file system together with the number of readings of the clock. -/
structure World where
  fs : FileSystem
  clock : Nat

/-- Go `runAudiblezOnEpub`: the world it leaves and the staging folder, `none`
for the error return. -/
def runAudiblezOnEpub (env : Env) (cfg : Config) (w : World) (book : Book) :
    World × Option String :=
  let tmpPath := "/tmp/audiobookconverter/" ++ env.now w.clock
  let w : World := { w with clock := w.clock + 1 }
  if !os.Open env w.fs book.EpubPath then (w, none)
  else
    match os.MkdirAll env w.fs tmpPath with
    | none => (w, none)
    | some fs1 =>
      match os.Create env fs1 (tmpPath ++ "/book.epub") with
      | none => ({ w with fs := fs1 }, none)
      | some fs2 =>
        match os.Copy env fs2 (tmpPath ++ "/book.epub") book.EpubPath with
        | (fs3, false) => ({ w with fs := fs3 }, none)
        | (fs3, true) =>
          if env.startFails tmpPath then ({ w with fs := fs3 }, none)
          else
            let fs4 := (env.audiblez cfg.VOICE tmpPath fs3).1
            let fs5 := os.Rename fs4 (filepath.Join tmpPath "book.epub")
              (filepath.Join tmpPath book.BookName)
            ({ w with fs := fs5 }, some tmpPath)

/-- The book name that `processBooks` derives from the map key:
`strings.Join(_tmp[:len(_tmp)-1], ".")` with `_tmp := strings.Split(epub, ".")`. -/
def bookNameOf (epub : String) : String :=
  String.mk (strings.joinChars '.' (strings.splitChars '.' epub.data).dropLast)

/-- The body of the loop of `processBooks` for one key of the map. -/
def processBook (env : Env) (cfg : Config) (books : Registry) (w : World) (epub : String) :
    World :=
  match books epub with
  | none => w
  | some book =>
    if book.Status = ProcessingState.New then
      let bookName := bookNameOf epub
      let bookFolder := filepath.Join cfg.FOLDER_OUT bookName
      match runAudiblezOnEpub env cfg w book with
      | (w1, none) => w1
      | (w1, some result_folder) =>
        let fs2 := (env.ffmpeg result_folder w1.fs).1
        let fs3 := (moveFiles env fs2 result_folder bookFolder [".wav", ".txt"]).1
        { w1 with fs := os.RemoveAll fs3 result_folder }
    else w

/-- Go `processBooks`; `keys` are the keys of the map in the order the `range`
statement happens to yield them. -/
def processBooks (env : Env) (cfg : Config) (books : Registry) (keys : List String)
    (w : World) : World :=
  keys.foldl (processBook env cfg books) w

/-! ## Sample environments -/

/-- The staging folder of the samples. -/
def sampleStaging : String := "/tmp/audiobookconverter/2025-01-01_00_00_00"

/-- A sample environment.  The clock always shows the same second; a
directory lists those of the names `N.epub`, `book.epub`, `x.mp3`, `x.txt`,
`x.wav` that exist in it; the conversion command writes nothing and exits
with status zero or not as `exitZero` says; the transcode writes nothing; the
calls that fail are the ones given. -/
def sampleEnv (createFails : String → Bool) (copyFault : String → Option Nat)
    (startFails exitZero : Bool) : Env :=
  { now := fun _ => "2025-01-01_00_00_00"
    openFails := fun _ => false
    mkdirFails := fun _ => false
    createFails := createFails
    copyFault := copyFault
    readDir := fun fs dir =>
      some (["N.epub", "book.epub", "x.mp3", "x.txt", "x.wav"].filter
        (fun n => (fs.files (filepath.Join dir n)).isSome || fs.dirs (filepath.Join dir n)))
    startFails := fun _ => startFails
    audiblez := fun _ _ fs => (fs, exitZero)
    ffmpeg := fun _ fs => (fs, true) }

/-- A sample configuration: the default depth bound and absolute roots. -/
def sampleConfig : Config :=
  { Config.default with FOLDER_IN := "/data/in", FOLDER_OUT := "/data/out" }

/-- A sample world: the input tree holds `N.epub`, three bytes long. -/
def sampleWorld : World :=
  { fs := { files := fun q => if q = "/data/in/N.epub" then some [1, 2, 3] else none
            dirs := fun q => q = "/data" || q = "/data/in" || q = "/data/out" }
    clock := 0 }

/-- The registry after the first pass over the sample world: `N.epub` was
found in the input tree only. -/
def sampleBooks : Registry := reconcile emptyRegistry ["/data/in/N.epub"] []

/-- A sample staging folder after a conversion: an audio file, a text file
and a raw audio file. -/
def relocationSample : FileSystem :=
  { files := fun q =>
      if q = "/tmp/audiobookconverter/2025-01-01_00_00_00/x.mp3" then some [1, 2, 3]
      else if q = "/tmp/audiobookconverter/2025-01-01_00_00_00/x.txt" then some [4]
      else if q = "/tmp/audiobookconverter/2025-01-01_00_00_00/x.wav" then some [5, 6]
      else none
    dirs := fun q => q = "/tmp/audiobookconverter/2025-01-01_00_00_00" }

/-- A sample world in which the book `A.epub` lies in `/in/y` and nowhere else. -/
def movedBookSample : World :=
  { fs := { files := fun q => if q = "/in/y/A.epub" then some [7, 8] else none
            dirs := fun q => q = "/in" || q = "/in/x" || q = "/in/y" }
    clock := 0 }

/-! ## Descriptions used in the statements -/

/-- The status that the last three statements of the loop body of
`parseAndAddBooks` give to an entry with these folders. -/
def statusOf (sourceFolder targetFolder : String) : ProcessingState :=
  if targetFolder ≠ "" then ProcessingState.Done
  else if sourceFolder ≠ "" then ProcessingState.New
  else ProcessingState.Error

/-- An entry with the folder of one role set and the status recomputed. -/
def setFolder (areBooksInImportFolder : Bool) (folder : String) (b : Book) : Book :=
  if areBooksInImportFolder then
    { b with SourceFolder := folder, Status := statusOf folder b.TargetFolder }
  else
    { b with TargetFolder := folder, Status := statusOf b.SourceFolder folder }

/-- Folder of the last listed path whose base name is `key`. -/
def lastDir (key : String) : List String → Option String
  | [] => none
  | p :: ps =>
    match lastDir key ps with
    | some d => some d
    | none => if filepath.Base p = key then some (filepath.Dir p) else none

/-- The first listed path whose base name is `key`. -/
def firstPath (key : String) (epubs : List String) : Option String :=
  epubs.find? (fun p => filepath.Base p = key)

/-- What a merge makes of the entry under one key. -/
def mergeAt (areBooksInImportFolder : Bool) (key : String) (found : Option Book)
    (epubs : List String) : Option Book :=
  match lastDir key epubs with
  | none => found
  | some d =>
    some (setFolder areBooksInImportFolder d
      (found.getD { Book.zero with BookName := key, EpubPath := (firstPath key epubs).getD "" }))

mutual
/-- Whether every directory of the tree can be listed and every entry can be
examined: the tree is read without error. -/
def FsNode.readable : FsNode → Bool
  | FsNode.file _ => true
  | FsNode.dir _ children => readableAll children
  | FsNode.unreadableDir _ => false
  | FsNode.lstatFails _ => false
/-- Whether each tree of the list is read without error. -/
def readableAll : List FsNode → Bool
  | [] => true
  | child :: rest => child.readable && readableAll rest
end

mutual
/-- Every entry of the tree found at `path`, the root included, with the path
under which the walk reaches it, in the order of the walk. -/
def FsNode.entries (path : String) : FsNode → List (String × FsNode)
  | FsNode.file name => [(path, FsNode.file name)]
  | FsNode.dir name children => (path, FsNode.dir name children) :: entriesIn path children
  | FsNode.unreadableDir name => [(path, FsNode.unreadableDir name)]
  | FsNode.lstatFails name => [(path, FsNode.lstatFails name)]
/-- The entries of the trees listed in the directory `path`. -/
def entriesIn (path : String) : List FsNode → List (String × FsNode)
  | [] => []
  | child :: rest => child.entries (filepath.Join path child.name) ++ entriesIn path rest
end

/-- The paths of the entries that are no directory and whose lower-cased name
ends in `.epub`. -/
def epubPaths (entries : List (String × FsNode)) : List String :=
  (entries.filter
    (fun e => !e.2.IsDir && strings.HasSuffix (strings.ToLower e.2.name) ".epub")).map Prod.fst

/-- Whether a string is the name of a directory entry as `os.ReadDir` yields
them: not empty, without separator, and neither `.` nor `..`. -/
def validName (name : String) : Bool :=
  decide (name.data ≠ [] ∧ filepath.Separator ∉ name.data ∧ name.data ≠ ['.'] ∧
    name.data ≠ ['.', '.'])

/-- What `filepath.Join dir name` puts in front of an entry name: the cleaned
directory and a separator, where one is needed. -/
def joinHead (dir : String) : List Char :=
  if dir.data = [] then []
  else
    let rooted : Bool := dir.data.head? = some filepath.Separator
    let stack := (strings.splitChars filepath.Separator dir.data).foldl
      (filepath.cleanStep rooted) []
    (if rooted then [filepath.Separator] else []) ++
      (if stack = [] then []
       else strings.joinChars filepath.Separator stack.reverse ++ [filepath.Separator])

/-- The bytes that `moveFiles` leaves in the destination file for a source
entry: nothing for a directory, the bytes of a regular file, or only their
beginning when `io.Copy` broke off. -/
def copiedBytes (env : Env) (fs : FileSystem) (srcPath destPath : String) : List Nat :=
  match fs.files srcPath with
  | none => []
  | some bytes =>
    match env.copyFault destPath with
    | none => bytes
    | some n => bytes.take n

/-! ## Lemmas on paths -/

theorem filepath.cleanChars_ne_nil (path : List Char) : filepath.cleanChars path ≠ [] := by
  unfold filepath.cleanChars
  by_cases h : path = []
  · simp [h]
  · have key : ∀ out : List Char, (if out = [] then ['.'] else out) ≠ [] := by
      intro out
      by_cases h2 : out = [] <;> simp [h2]
    simp only [h, if_false]
    exact key _

theorem filepath.Dir_ne_empty (path : String) : filepath.Dir path ≠ "" := by
  intro h
  have h2 := congrArg String.data h
  exact filepath.cleanChars_ne_nil _ h2

theorem strings.splitChars_ne_nil (sep : Char) (l : List Char) :
    strings.splitChars sep l ≠ [] := by
  cases l with
  | nil => simp [strings.splitChars]
  | cons c cs =>
    simp only [strings.splitChars]
    split
    · simp
    · split_ifs <;> simp

theorem strings.splitChars_append (sep : Char) (a b : List Char) :
    strings.splitChars sep (a ++ sep :: b)
      = strings.splitChars sep a ++ strings.splitChars sep b := by
  induction a with
  | nil =>
    cases hb : strings.splitChars sep b with
    | nil => exact absurd hb (strings.splitChars_ne_nil sep b)
    | cons seg segs => simp [strings.splitChars, hb]
  | cons c cs ih =>
    cases ha : strings.splitChars sep cs with
    | nil => exact absurd ha (strings.splitChars_ne_nil sep cs)
    | cons seg segs =>
      rw [ha] at ih
      have hstep : strings.splitChars sep (c :: cs ++ sep :: b)
          = match strings.splitChars sep (cs ++ sep :: b) with
            | [] => [[c]]
            | seg :: segs => if c = sep then [] :: seg :: segs else (c :: seg) :: segs := rfl
      rw [hstep, ih]
      simp only [strings.splitChars, ha]
      split_ifs <;> simp

theorem strings.splitChars_of_not_mem (sep : Char) (l : List Char) (h : sep ∉ l) :
    strings.splitChars sep l = [l] := by
  induction l with
  | nil => rfl
  | cons c cs ih =>
    have hc : c ≠ sep := fun hc => h (by simp [hc])
    have hcs : sep ∉ cs := fun hm => h (by simp [hm])
    simp [strings.splitChars, ih hcs, hc]

theorem strings.joinChars_append_singleton (sep : Char) (xs : List (List Char))
    (n : List Char) :
    strings.joinChars sep (xs ++ [n])
      = if xs = [] then n else strings.joinChars sep xs ++ sep :: n := by
  induction xs with
  | nil => simp [strings.joinChars]
  | cons x rest ih =>
    cases rest with
    | nil => simp [strings.joinChars]
    | cons y ys =>
      simp only [List.cons_append] at ih ⊢
      simp only [strings.joinChars, ih]
      simp

theorem filepath.cleanStep_of_name (rooted : Bool) (stack : List (List Char))
    (n : List Char) (h1 : n ≠ []) (h2 : n ≠ ['.']) (h3 : n ≠ ['.', '.']) :
    filepath.cleanStep rooted stack n = n :: stack := by
  simp [filepath.cleanStep, h1, h2, h3]

theorem validName_iff (name : String) :
    validName name = true ↔ name.data ≠ [] ∧ filepath.Separator ∉ name.data ∧
      name.data ≠ ['.'] ∧ name.data ≠ ['.', '.'] := by
  simp [validName]

theorem filepath.cleanChars_of_name (n : List Char) (h1 : n ≠ [])
    (hs : filepath.Separator ∉ n) (h2 : n ≠ ['.']) (h3 : n ≠ ['.', '.']) :
    filepath.cleanChars n = n := by
  have hhead : n.head? ≠ some filepath.Separator := by
    cases n with
    | nil => simp
    | cons c cs =>
      intro hc
      simp only [List.head?_cons, Option.some.injEq] at hc
      exact hs (by simp [hc])
  simp [filepath.cleanChars, h1, hhead, strings.splitChars_of_not_mem _ _ hs,
    filepath.cleanStep_of_name _ _ _ h1 h2 h3, strings.joinChars]

theorem filepath.cleanChars_join (d n : List Char) (hd : d ≠ []) (h1 : n ≠ [])
    (hs : filepath.Separator ∉ n) (h2 : n ≠ ['.']) (h3 : n ≠ ['.', '.']) :
    filepath.cleanChars (d ++ filepath.Separator :: n)
      = (if d.head? = some filepath.Separator then [filepath.Separator] else []) ++
        (if (strings.splitChars filepath.Separator d).foldl
              (filepath.cleanStep (decide (d.head? = some filepath.Separator))) [] = []
         then []
         else strings.joinChars filepath.Separator
            ((strings.splitChars filepath.Separator d).foldl
              (filepath.cleanStep (decide (d.head? = some filepath.Separator))) []).reverse
            ++ [filepath.Separator]) ++ n := by
  have hne : d ++ filepath.Separator :: n ≠ [] := by simp
  have hhead : (d ++ filepath.Separator :: n).head? = d.head? := by
    cases d with
    | nil => exact absurd rfl hd
    | cons c cs => rfl
  unfold filepath.cleanChars
  simp only [hne, if_false, hhead, strings.splitChars_append,
    strings.splitChars_of_not_mem _ _ hs, List.foldl_append, List.foldl_cons, List.foldl_nil,
    filepath.cleanStep_of_name _ _ _ h1 h2 h3, List.reverse_cons,
    strings.joinChars_append_singleton]
  generalize (strings.splitChars filepath.Separator d).foldl
    (filepath.cleanStep (decide (d.head? = some filepath.Separator))) [] = stack
  by_cases hst : stack = []
  · by_cases hr : d.head? = some filepath.Separator <;> simp [hst, hr, h1]
  · by_cases hr : d.head? = some filepath.Separator <;> simp [hst, hr]

theorem filepath.Join_data (dir name : String) (h : validName name = true) :
    (filepath.Join dir name).data = joinHead dir ++ name.data := by
  obtain ⟨h1, hs, h2, h3⟩ := (validName_iff name).mp h
  have hname : name ≠ "" := fun hn => h1 (by rw [hn])
  by_cases hd : dir = ""
  · subst hd
    have : filepath.Join "" name = filepath.Clean name := by
      simp [filepath.Join, hname]
    rw [this]
    simp [filepath.Clean, joinHead, filepath.cleanChars_of_name _ h1 hs h2 h3]
  · have hdd : dir.data ≠ [] := fun hn => hd (String.ext hn)
    have : filepath.Join dir name
        = filepath.Clean (String.mk (dir.data ++ filepath.Separator :: name.data)) := by
      simp [filepath.Join, hd]
    rw [this]
    simp only [filepath.Clean, joinHead, hdd, if_false]
    rw [filepath.cleanChars_join _ _ hdd h1 hs h2 h3]
    simp

theorem filepath.Join_injective (dir n1 n2 : String) (h1 : validName n1 = true)
    (h2 : validName n2 = true) (h : filepath.Join dir n1 = filepath.Join dir n2) : n1 = n2 := by
  have hdata := congrArg String.data h
  rw [filepath.Join_data _ _ h1, filepath.Join_data _ _ h2] at hdata
  exact String.ext (List.append_cancel_left hdata)

theorem joinHead_end (dir : String) :
    joinHead dir = [] ∨ ∃ front, joinHead dir = front ++ [filepath.Separator] := by
  unfold joinHead
  by_cases hd : dir.data = []
  · simp [hd]
  · simp only [hd, if_false]
    generalize (strings.splitChars filepath.Separator dir.data).foldl
      (filepath.cleanStep (decide (dir.data.head? = some filepath.Separator))) [] = stack
    by_cases hr : dir.data.head? = some filepath.Separator <;> by_cases hst : stack = []
    · exact Or.inr ⟨[], by simp [hr, hst]⟩
    · exact Or.inr ⟨filepath.Separator ::
        strings.joinChars filepath.Separator stack.reverse, by simp [hr, hst]⟩
    · exact Or.inl (by simp [hr, hst])
    · exact Or.inr ⟨strings.joinChars filepath.Separator stack.reverse, by simp [hr, hst]⟩

theorem filepath.extScan_append (xs ys acc : List Char) (hs : filepath.Separator ∉ xs)
    (hy : ys = [] ∨ ∃ t, ys = filepath.Separator :: t) :
    filepath.extScan (xs ++ ys) acc = filepath.extScan xs acc := by
  induction xs generalizing acc with
  | nil =>
    rcases hy with hy | ⟨t, hy⟩ <;> subst hy <;> simp [filepath.extScan]
  | cons c cs ih =>
    have hc : c ≠ filepath.Separator := fun hc => hs (by simp [hc])
    have hcs : filepath.Separator ∉ cs := fun hm => hs (by simp [hm])
    simp only [List.cons_append, filepath.extScan, hc, if_false]
    split_ifs
    · rfl
    · exact ih _ hcs

theorem filepath.Ext_Join (dir name : String) (h : validName name = true) :
    filepath.Ext (filepath.Join dir name) = filepath.Ext name := by
  obtain ⟨_, hs, _, _⟩ := (validName_iff name).mp h
  have hrev : filepath.Separator ∉ name.data.reverse := by simpa using hs
  unfold filepath.Ext
  rw [filepath.Join_data _ _ h, List.reverse_append]
  rw [filepath.extScan_append _ _ _ hrev]
  rcases joinHead_end dir with h0 | ⟨front, h0⟩
  · exact Or.inl (by simp [h0])
  · exact Or.inr ⟨front.reverse, by simp [h0]⟩

/-! ## Merging, key by key -/

theorem bookEntryFor_some (role : Bool) (e : Book) (epub : String) :
    bookEntryFor role (some e) epub = setFolder role (filepath.Dir epub) e := by
  have hd := filepath.Dir_ne_empty epub
  cases role <;> simp [bookEntryFor, setFolder, statusOf, hd] <;> split_ifs <;> simp_all

theorem bookEntryFor_none (role : Bool) (epub : String) :
    bookEntryFor role none epub = setFolder role (filepath.Dir epub)
      { Book.zero with BookName := filepath.Base epub, EpubPath := epub } := by
  have hd := filepath.Dir_ne_empty epub
  cases role <;> simp [bookEntryFor, setFolder, statusOf, hd, Book.zero]

theorem setFolder_setFolder (role : Bool) (d1 d2 : String) (b : Book) :
    setFolder role d2 (setFolder role d1 b) = setFolder role d2 b := by
  cases role <;> simp [setFolder]

theorem parseAndAddBooks_apply (booksMap : Registry) (epubs : List String) (role : Bool)
    (key : String) :
    parseAndAddBooks booksMap epubs role key = mergeAt role key (booksMap key) epubs := by
  induction epubs generalizing booksMap with
  | nil => rfl
  | cons p ps ih =>
    have hstep : parseAndAddBooks booksMap (p :: ps) role
        = parseAndAddBooks (parseAndAddBook role booksMap p) ps role := rfl
    rw [hstep, ih]
    by_cases hk : filepath.Base p = key
    · subst hk
      have hnew : parseAndAddBook role booksMap p (filepath.Base p)
          = some (bookEntryFor role (booksMap (filepath.Base p)) p) := by
        simp [parseAndAddBook]
      rw [hnew]
      cases hfound : booksMap (filepath.Base p) with
      | none =>
        rw [bookEntryFor_none]
        cases hl : lastDir (filepath.Base p) ps <;>
          simp [mergeAt, lastDir, firstPath, hl, setFolder_setFolder]
      | some e =>
        rw [bookEntryFor_some]
        cases hl : lastDir (filepath.Base p) ps <;>
          simp [mergeAt, lastDir, hl, setFolder_setFolder]
    · have hsame : parseAndAddBook role booksMap p key = booksMap key := by
        simp [parseAndAddBook, Function.update, Ne.symm hk]
      rw [hsame]
      cases hl : lastDir key ps <;> simp [mergeAt, lastDir, firstPath, hl, hk]

theorem lastDir_eq_none_iff (key : String) (epubs : List String) :
    lastDir key epubs = none ↔ ∀ p ∈ epubs, filepath.Base p ≠ key := by
  induction epubs with
  | nil => simp [lastDir]
  | cons p ps ih =>
    cases hl : lastDir key ps with
    | none =>
      have hps := ih.mp hl
      by_cases hk : filepath.Base p = key <;> simp [lastDir, hl, hk]
      exact hps
    | some d =>
      have hne : ¬ ∀ q ∈ ps, filepath.Base q ≠ key := fun hall => by
        rw [ih.mpr hall] at hl
        cases hl
      simp only [lastDir, hl, List.mem_cons]
      constructor
      · intro hcontra
        cases hcontra
      · intro hall
        exact absurd (fun q hq => hall q (Or.inr hq)) hne

theorem lastDir_ne_empty (key : String) (epubs : List String) (d : String)
    (h : lastDir key epubs = some d) : d ≠ "" := by
  induction epubs with
  | nil => simp [lastDir] at h
  | cons p ps ih =>
    cases hl : lastDir key ps with
    | some d2 =>
      simp only [lastDir, hl, Option.some.injEq] at h
      exact ih (h ▸ hl)
    | none =>
      by_cases hk : filepath.Base p = key
      · simp only [lastDir, hl, hk, if_true, Option.some.injEq] at h
        exact h ▸ filepath.Dir_ne_empty p
      · simp [lastDir, hl, hk] at h

theorem lastDir_isSome_of_mem (epubs : List String) (p : String) (h : p ∈ epubs) :
    ∃ d, lastDir (filepath.Base p) epubs = some d ∧ d ≠ "" := by
  cases hl : lastDir (filepath.Base p) epubs with
  | none => exact absurd rfl ((lastDir_eq_none_iff _ _).mp hl p h)
  | some d => exact ⟨d, rfl, lastDir_ne_empty _ _ _ hl⟩

theorem statusOf_target (s t : String) (h : t ≠ "") : statusOf s t = ProcessingState.Done := by
  simp [statusOf, h]

theorem statusOf_source (s : String) (h : s ≠ "") : statusOf s "" = ProcessingState.New := by
  simp [statusOf, h]

theorem setFolder_status (role : Bool) (d : String) (b : Book) :
    (setFolder role d b).Status
      = statusOf (setFolder role d b).SourceFolder (setFolder role d b).TargetFolder := by
  cases role <;> simp [setFolder]

theorem reconcile_apply (booksMap : Registry) (inputScan outputScan : List String)
    (key : String) :
    reconcile booksMap inputScan outputScan key
      = mergeAt false key (mergeAt true key (booksMap key) inputScan) outputScan := by
  simp [reconcile, parseAndAddBooks_apply]

/-- A touched entry is there and its status follows from its two folders. -/
theorem merge_touched (booksMap : Registry) (epubs : List String) (role : Bool) (p : String)
    (h : p ∈ epubs) :
    ∃ e, parseAndAddBooks booksMap epubs role (filepath.Base p) = some e ∧
      e.Status = statusOf e.SourceFolder e.TargetFolder ∧
      (role = true → e.SourceFolder ≠ "") ∧ (role = false → e.TargetFolder ≠ "") := by
  obtain ⟨d, hd, hne⟩ := lastDir_isSome_of_mem epubs p h
  refine ⟨_, by rw [parseAndAddBooks_apply, mergeAt, hd], setFolder_status _ _ _, ?_, ?_⟩
  · intro hr
    subst hr
    simpa [setFolder] using hne
  · intro hr
    subst hr
    simpa [setFolder] using hne

/-- An entry that has a target folder and status `Done` keeps both through any merge. -/
theorem merge_keeps_done (booksMap : Registry) (epubs : List String) (role : Bool)
    (key : String)
    (h : ∃ e, booksMap key = some e ∧ e.TargetFolder ≠ "" ∧ e.Status = ProcessingState.Done) :
    ∃ e, parseAndAddBooks booksMap epubs role key = some e ∧ e.TargetFolder ≠ "" ∧
      e.Status = ProcessingState.Done := by
  obtain ⟨e, he, ht, hs⟩ := h
  rw [parseAndAddBooks_apply, he]
  cases hl : lastDir key epubs with
  | none => exact ⟨e, by simp [mergeAt, hl], ht, hs⟩
  | some d =>
    have hd := lastDir_ne_empty _ _ _ hl
    refine ⟨setFolder role d e, by simp [mergeAt, hl], ?_, ?_⟩
    · cases role <;> simp [setFolder, ht, hd]
    · cases role <;> simp [setFolder, statusOf, ht, hd]

/-- Every entry of a registry built by source-role merges alone has a source
folder, no target folder and status `New`. -/
theorem source_only_invariant (scans : List (List String)) (key : String) (e : Book)
    (h : scans.foldl (fun m s => parseAndAddBooks m s true) emptyRegistry key = some e) :
    e.SourceFolder ≠ "" ∧ e.TargetFolder = "" ∧ e.Status = ProcessingState.New := by
  induction scans using List.reverseRecOn generalizing e with
  | nil => simp [emptyRegistry] at h
  | append_singleton scans s ih =>
    rw [List.foldl_append] at h
    simp only [List.foldl_cons, List.foldl_nil] at h
    rw [parseAndAddBooks_apply] at h
    cases hl : lastDir key s with
    | none =>
      simp only [mergeAt, hl] at h
      exact ih e h
    | some d =>
      have hd := lastDir_ne_empty _ _ _ hl
      simp only [mergeAt, hl, Option.some.injEq] at h
      cases hprev : scans.foldl (fun m s => parseAndAddBooks m s true) emptyRegistry key with
      | none =>
        rw [hprev] at h
        subst h
        simp [setFolder, statusOf, Book.zero, hd]
      | some e0 =>
        rw [hprev] at h
        obtain ⟨_, ht0, _⟩ := ih e0 hprev
        subst h
        simp [setFolder, statusOf, ht0, hd]

theorem mergeAt_of_none (role : Bool) (key : String) (found : Option Book)
    (epubs : List String) (h : lastDir key epubs = none) :
    mergeAt role key found epubs = found := by
  simp only [mergeAt, h]

theorem mergeAt_of_some (role : Bool) (key : String) (found : Option Book)
    (epubs : List String) (d : String) (h : lastDir key epubs = some d) :
    mergeAt role key found epubs = some (setFolder role d
      (found.getD { Book.zero with BookName := key, EpubPath := (firstPath key epubs).getD "" })) := by
  simp only [mergeAt, h]

theorem reconcile_target_iff (booksMap : Registry) (inputScan outputScan : List String)
    (key : String) :
    (∃ e, reconcile booksMap inputScan outputScan key = some e ∧ e.TargetFolder ≠ "") ↔
      ((∃ q ∈ outputScan, filepath.Base q = key) ∨
        ∃ e0, booksMap key = some e0 ∧ e0.TargetFolder ≠ "") := by
  rw [reconcile_apply]
  cases hB : lastDir key outputScan with
  | some dB =>
    have hd := lastDir_ne_empty _ _ _ hB
    have hex : ∃ q ∈ outputScan, filepath.Base q = key := by
      by_contra hno
      push_neg at hno
      rw [(lastDir_eq_none_iff _ _).mpr hno] at hB
      cases hB
    rw [mergeAt_of_some _ _ _ _ _ hB]
    constructor
    · intro _
      exact Or.inl hex
    · intro _
      exact ⟨_, rfl, by simp [setFolder, hd]⟩
  | none =>
    have hno := (lastDir_eq_none_iff _ _).mp hB
    have hleft : ¬ ∃ q ∈ outputScan, filepath.Base q = key := fun ⟨q, hq, hk⟩ => hno q hq hk
    rw [mergeAt_of_none _ _ _ _ hB]
    simp only [hleft, false_or]
    cases hA : lastDir key inputScan with
    | none => rw [mergeAt_of_none _ _ _ _ hA]
    | some dA =>
      rw [mergeAt_of_some _ _ _ _ _ hA]
      cases hm : booksMap key with
      | none => simp [setFolder, Book.zero]
      | some e0 => simp [setFolder]

theorem afterCycles_target_iff (earlier : List (List String × List String)) (key : String) :
    (∃ e, afterCycles earlier key = some e ∧ e.TargetFolder ≠ "") ↔
      ∃ c ∈ earlier, ∃ q ∈ c.2, filepath.Base q = key := by
  induction earlier using List.reverseRecOn with
  | nil => simp [afterCycles, emptyRegistry]
  | append_singleton earlier c ih =>
    have hstep : afterCycles (earlier ++ [c]) = reconcile (afterCycles earlier) c.1 c.2 := by
      simp [afterCycles, List.foldl_append]
    rw [hstep, reconcile_target_iff, ih]
    constructor
    · rintro (⟨q, hq, hk⟩ | ⟨c2, hc2, q, hq, hk⟩)
      · exact ⟨c, by simp, q, hq, hk⟩
      · exact ⟨c2, by simp [hc2], q, hq, hk⟩
    · rintro ⟨c2, hc2, q, hq, hk⟩
      rcases List.mem_append.mp hc2 with h1 | h1
      · exact Or.inr ⟨c2, h1, q, hq, hk⟩
      · have : c2 = c := by simpa using h1
        subst this
        exact Or.inl ⟨q, hq, hk⟩

/-- After a pass, a book of the input scan is there, and it is `Done` exactly
when it has a target folder, `New` otherwise. -/
theorem reconcile_touched (booksMap : Registry) (inputScan outputScan : List String)
    (p : String) (h : p ∈ inputScan) :
    ∃ e, reconcile booksMap inputScan outputScan (filepath.Base p) = some e ∧
      (e.Status = ProcessingState.Done ↔ e.TargetFolder ≠ "") ∧
      (e.Status ≠ ProcessingState.Done → e.Status = ProcessingState.New) := by
  obtain ⟨e1, he1, hs1, hsrc, _⟩ := merge_touched booksMap inputScan true p h
  have hsf := hsrc rfl
  unfold reconcile
  rw [parseAndAddBooks_apply, he1]
  cases hB : lastDir (filepath.Base p) outputScan with
  | none =>
    refine ⟨e1, mergeAt_of_none _ _ _ _ hB, ?_, ?_⟩
    · rw [hs1]
      by_cases ht : e1.TargetFolder = "" <;> simp [statusOf, ht, hsf]
    · rw [hs1]
      by_cases ht : e1.TargetFolder = "" <;> simp [statusOf, ht, hsf]
  | some dB =>
    have hd := lastDir_ne_empty _ _ _ hB
    refine ⟨setFolder false dB e1, mergeAt_of_some _ _ _ _ _ hB, ?_, ?_⟩
    · simp [setFolder, statusOf, hd]
    · simp [setFolder, statusOf, hd]

/-- A book that no target-role merge ever listed: whatever merges of either
role were applied to the empty registry, its entry, once present, has a source
folder, no target folder and status `New`. -/
theorem never_target_invariant (merges : List (List String × Bool)) (key : String)
    (hnever : ∀ s ∈ merges, s.2 = false → ∀ p ∈ s.1, filepath.Base p ≠ key) (e : Book)
    (h : merges.foldl (fun m s => parseAndAddBooks m s.1 s.2) emptyRegistry key = some e) :
    e.SourceFolder ≠ "" ∧ e.TargetFolder = "" ∧ e.Status = ProcessingState.New := by
  induction merges using List.reverseRecOn generalizing e with
  | nil => simp [emptyRegistry] at h
  | append_singleton merges s ih =>
    have hprevNever : ∀ t ∈ merges, t.2 = false → ∀ p ∈ t.1, filepath.Base p ≠ key :=
      fun t ht => hnever t (List.mem_append.mpr (Or.inl ht))
    have hlast : s.2 = false → ∀ p ∈ s.1, filepath.Base p ≠ key :=
      hnever s (List.mem_append.mpr (Or.inr (List.mem_singleton.mpr rfl)))
    rw [List.foldl_append] at h
    simp only [List.foldl_cons, List.foldl_nil] at h
    rw [parseAndAddBooks_apply] at h
    cases hl : lastDir key s.1 with
    | none =>
      rw [mergeAt_of_none _ _ _ _ hl] at h
      exact ih hprevNever e h
    | some d =>
      have hd := lastDir_ne_empty _ _ _ hl
      have hrole : s.2 = true := by
        cases hr : s.2 with
        | true => rfl
        | false =>
          rw [(lastDir_eq_none_iff _ _).mpr (hlast hr)] at hl
          cases hl
      rw [mergeAt_of_some _ _ _ _ _ hl, hrole] at h
      simp only [Option.some.injEq] at h
      cases hprev : merges.foldl (fun m s => parseAndAddBooks m s.1 s.2) emptyRegistry key with
      | none =>
        rw [hprev] at h
        subst h
        simp [setFolder, statusOf, Book.zero, hd]
      | some e0 =>
        rw [hprev] at h
        obtain ⟨_, ht0, _⟩ := ih hprevNever e0 hprev
        subst h
        simp [setFolder, statusOf, ht0, hd]

/-! ## The registry claims -/

/-- C1. After a merge of any role into any registry, the entry of every listed
path is present, is `Done` when its target folder is set, and is `New` when its
source folder is set and its target folder is not.  Whatever merges of either
role are applied to the empty registry, a book that no target-role merge
listed (it was only ever found by source-role merges) is `New`, whatever
happened to other books; in particular a registry built by source-role merges
alone holds only `New` books.  A book listed in a target-role merge is `Done`
and stays `Done` through any later merges of either role.  Input `A.epub` with
output `A/A.epub` gives `Done`; input `A.epub` alone gives the single entry
`A.epub`, which is `New`. -/
theorem parseAndAddBooks_status_derivation (booksMap : Registry) (epubs : List String)
    (role : Bool) (p : String) (h : p ∈ epubs) :
    (∃ e, parseAndAddBooks booksMap epubs role (filepath.Base p) = some e ∧
      (e.TargetFolder ≠ "" → e.Status = ProcessingState.Done) ∧
      (e.SourceFolder ≠ "" → e.TargetFolder = "" → e.Status = ProcessingState.New)) ∧
    (∀ (merges : List (List String × Bool)) (key : String) (e : Book),
      (∀ s ∈ merges, s.2 = false → ∀ q ∈ s.1, filepath.Base q ≠ key) →
      merges.foldl (fun m s => parseAndAddBooks m s.1 s.2) emptyRegistry key = some e →
        e.Status = ProcessingState.New ∧ e.SourceFolder ≠ "" ∧ e.TargetFolder = "") ∧
    (∀ (scans : List (List String)) (key : String) (e : Book),
      scans.foldl (fun m s => parseAndAddBooks m s true) emptyRegistry key = some e →
        e.Status = ProcessingState.New) ∧
    (∀ later : List (List String × Bool),
      ∃ e, later.foldl (fun m s => parseAndAddBooks m s.1 s.2)
          (parseAndAddBooks booksMap epubs false) (filepath.Base p) = some e ∧
        e.Status = ProcessingState.Done) ∧
    (reconcile emptyRegistry ["/in/A.epub"] ["/out/A/A.epub"] "A.epub").map Book.Status
      = some ProcessingState.Done ∧
    (reconcile emptyRegistry ["/in/A.epub"] [] "A.epub").map Book.Status
      = some ProcessingState.New ∧
    (∀ key, key ≠ "A.epub" → reconcile emptyRegistry ["/in/A.epub"] [] key = none) := by
  refine ⟨?_, ?_, ?_, ?_, by decide, by decide, ?_⟩
  · obtain ⟨e, he, hs, _, _⟩ := merge_touched booksMap epubs role p h
    refine ⟨e, he, ?_, ?_⟩
    · intro ht
      rw [hs]
      exact statusOf_target _ _ ht
    · intro hsf ht
      rw [hs, ht]
      exact statusOf_source _ hsf
  · intro merges key e hnever he
    obtain ⟨h1, h2, h3⟩ := never_target_invariant merges key hnever e he
    exact ⟨h3, h1, h2⟩
  · intro scans key e he
    exact (source_only_invariant scans key e he).2.2
  · intro later
    have hstart : ∃ e, parseAndAddBooks booksMap epubs false (filepath.Base p) = some e ∧
        e.TargetFolder ≠ "" ∧ e.Status = ProcessingState.Done := by
      obtain ⟨e, he, hs, _, ht⟩ := merge_touched booksMap epubs false p h
      exact ⟨e, he, ht rfl, by rw [hs]; exact statusOf_target _ _ (ht rfl)⟩
    have hall : ∀ (m : Registry),
        (∃ e, m (filepath.Base p) = some e ∧ e.TargetFolder ≠ "" ∧
          e.Status = ProcessingState.Done) →
        ∃ e, later.foldl (fun m s => parseAndAddBooks m s.1 s.2) m (filepath.Base p) = some e ∧
          e.TargetFolder ≠ "" ∧ e.Status = ProcessingState.Done := by
      induction later with
      | nil => intro m hm; exact hm
      | cons s rest ih =>
        intro m hm
        exact ih _ (merge_keeps_done m s.1 s.2 _ hm)
    obtain ⟨e, he, _, hst⟩ := hall _ hstart
    exact ⟨e, he, hst⟩
  · intro key hkey
    have hbase : filepath.Base "/in/A.epub" = "A.epub" := by decide
    rw [reconcile_apply]
    have h1 : lastDir key ["/in/A.epub"] = none := by
      simp [lastDir, hbase, Ne.symm hkey]
    rw [mergeAt_of_none _ _ _ _ (by rfl), mergeAt_of_none _ _ _ _ h1]
    rfl

/-- C1 at a concrete input: the input scan `/in/A.epub` merged as source into
the empty registry. -/
theorem parseAndAddBooks_status_derivation_witness :
    "/in/A.epub" ∈ ["/in/A.epub"] ∧
    ∃ e, parseAndAddBooks emptyRegistry ["/in/A.epub"] true (filepath.Base "/in/A.epub") = some e ∧
      (e.TargetFolder ≠ "" → e.Status = ProcessingState.Done) ∧
      (e.SourceFolder ≠ "" → e.TargetFolder = "" → e.Status = ProcessingState.New) :=
  ⟨by decide,
    (parseAndAddBooks_status_derivation emptyRegistry ["/in/A.epub"] true "/in/A.epub"
      (by decide)).1⟩

/-- C2 as stated fails.  After an earlier pass in which the output tree held
`A/A.epub`, a pass in which the output scan is empty leaves `A.epub` of the
input scan `Done`, though the output scan of this pass holds no path of that
base name. -/
theorem directory_contract_counterexample :
    "/in/A.epub" ∈ ["/in/A.epub"] ∧
    (reconcile (afterCycles [(["/in/A.epub"], ["/out/A/A.epub"])]) ["/in/A.epub"] []
        (filepath.Base "/in/A.epub")).map Book.Status = some ProcessingState.Done ∧
    ¬ ∃ q ∈ ([] : List String), filepath.Base q = filepath.Base "/in/A.epub" := by
  refine ⟨by decide, by decide, ?_⟩
  simp

/-- C2, amended.  After any earlier passes from the empty registry and one
more pass, every book of this pass's input scan is `Done` if and only if the
output scan of this pass or of an earlier pass holds a path of the same base
name; otherwise it is `New`. -/
theorem directory_contract_amended (earlier : List (List String × List String))
    (inputScan outputScan : List String) (p : String) (h : p ∈ inputScan) :
    ∃ e, reconcile (afterCycles earlier) inputScan outputScan (filepath.Base p) = some e ∧
      (e.Status = ProcessingState.Done ↔
        ((∃ q ∈ outputScan, filepath.Base q = filepath.Base p) ∨
          ∃ c ∈ earlier, ∃ q ∈ c.2, filepath.Base q = filepath.Base p)) ∧
      (e.Status ≠ ProcessingState.Done → e.Status = ProcessingState.New) := by
  obtain ⟨e, he, hiff, hnew⟩ := reconcile_touched (afterCycles earlier) inputScan outputScan p h
  refine ⟨e, he, ?_, hnew⟩
  rw [hiff, ← afterCycles_target_iff, ← reconcile_target_iff (afterCycles earlier) inputScan]
  constructor
  · intro ht
    exact ⟨e, he, ht⟩
  · rintro ⟨e2, he2, ht⟩
    rw [he] at he2
    cases he2
    exact ht

/-- C2, amended, at a concrete input: the second pass of the counterexample. -/
theorem directory_contract_amended_witness :
    "/in/A.epub" ∈ ["/in/A.epub"] ∧
    ∃ e, reconcile (afterCycles [(["/in/A.epub"], ["/out/A/A.epub"])]) ["/in/A.epub"] []
        (filepath.Base "/in/A.epub") = some e ∧
      (e.Status = ProcessingState.Done ↔
        ((∃ q ∈ ([] : List String), filepath.Base q = filepath.Base "/in/A.epub") ∨
          ∃ c ∈ [((["/in/A.epub"] : List String), (["/out/A/A.epub"] : List String))],
            ∃ q ∈ c.2, filepath.Base q = filepath.Base "/in/A.epub")) ∧
      (e.Status ≠ ProcessingState.Done → e.Status = ProcessingState.New) :=
  ⟨by decide,
    directory_contract_amended [(["/in/A.epub"], ["/out/A/A.epub"])] ["/in/A.epub"] []
      "/in/A.epub" (by decide)⟩

/-- C3. A merge only adds.  A key that was present stays present; an entry
whose key is the base name of no listed path is unchanged; an entry that was
present keeps the folder of the other role, and a folder of either role that
was set is still set afterwards; an entry that the merge creates has no folder
of the other role. -/
theorem parseAndAddBooks_additive (booksMap : Registry) (epubs : List String) (role : Bool)
    (key : String) :
    ((booksMap key).isSome → (parseAndAddBooks booksMap epubs role key).isSome) ∧
    ((∀ p ∈ epubs, filepath.Base p ≠ key) →
      parseAndAddBooks booksMap epubs role key = booksMap key) ∧
    (∀ e, booksMap key = some e →
      ∃ e2, parseAndAddBooks booksMap epubs role key = some e2 ∧
        (role = true → e2.TargetFolder = e.TargetFolder) ∧
        (role = false → e2.SourceFolder = e.SourceFolder) ∧
        (e.SourceFolder ≠ "" → e2.SourceFolder ≠ "") ∧
        (e.TargetFolder ≠ "" → e2.TargetFolder ≠ "")) ∧
    (∀ e2, booksMap key = none → parseAndAddBooks booksMap epubs role key = some e2 →
      (role = true → e2.TargetFolder = "") ∧ (role = false → e2.SourceFolder = "")) := by
  rw [parseAndAddBooks_apply]
  cases hl : lastDir key epubs with
  | none =>
    rw [mergeAt_of_none _ _ _ _ hl]
    refine ⟨id, fun _ => rfl, ?_, ?_⟩
    · intro e he
      exact ⟨e, he, fun _ => rfl, fun _ => rfl, id, id⟩
    · intro e2 hnone hsome
      rw [hnone] at hsome
      cases hsome
  | some d =>
    have hd := lastDir_ne_empty _ _ _ hl
    rw [mergeAt_of_some _ _ _ _ _ hl]
    refine ⟨fun _ => rfl, ?_, ?_, ?_⟩
    · intro hno
      rw [(lastDir_eq_none_iff _ _).mpr hno] at hl
      cases hl
    · intro e he
      refine ⟨_, rfl, ?_, ?_, ?_, ?_⟩
      · intro hr
        subst hr
        simp [he, setFolder]
      · intro hr
        subst hr
        simp [he, setFolder]
      · intro hs
        cases role <;> simp [he, setFolder, hs, hd]
      · intro ht
        cases role <;> simp [he, setFolder, ht, hd]
    · intro e2 hnone hsome
      rw [hnone] at hsome
      simp only [Option.getD_none, Option.some.injEq] at hsome
      subst hsome
      constructor
      · intro hr
        subst hr
        simp [setFolder, Book.zero]
      · intro hr
        subst hr
        simp [setFolder, Book.zero]

/-- C3 at a concrete input: a book found in the output tree before is found
in the input tree now and keeps its target folder. -/
theorem parseAndAddBooks_additive_witness :
    ∃ e2, parseAndAddBooks (parseAndAddBooks emptyRegistry ["/out/A/A.epub"] false)
        ["/in/A.epub"] true "A.epub" = some e2 ∧ e2.TargetFolder = "/out/A" := by
  obtain ⟨e2, he2, hkeep, _⟩ :=
    (parseAndAddBooks_additive (parseAndAddBooks emptyRegistry ["/out/A/A.epub"] false)
      ["/in/A.epub"] true "A.epub").2.2.1
      { Book.zero with EpubPath := "/out/A/A.epub", BookName := "A.epub",
                       TargetFolder := "/out/A", Status := ProcessingState.Done }
      (by decide)
  exact ⟨e2, he2, hkeep rfl⟩

/-- C4 fails on the code.  A book was found at `/in/x/A.epub` by one
source-role merge and is found at `/in/y/A.epub` by the next.  The entry then
has the new source folder but still the old `EpubPath`, which is neither the
listed path nor `Join(SourceFolder, BookName)`; with the book lying in `/in/y`
only, `runAudiblezOnEpub` cannot open it and returns its error. -/
theorem source_merge_keeps_old_EpubPath :
    parseAndAddBooks (parseAndAddBooks emptyRegistry ["/in/x/A.epub"] true)
        ["/in/y/A.epub"] true (filepath.Base "/in/y/A.epub")
      = some { EpubPath := "/in/x/A.epub", BookName := "A.epub", SourceFolder := "/in/y",
               TargetFolder := "", Status := ProcessingState.New,
               TimeRemaining := 0, Progress := 0 } ∧
    filepath.Dir "/in/y/A.epub" = "/in/y" ∧
    "/in/x/A.epub" ≠ "/in/y/A.epub" ∧
    "/in/x/A.epub" ≠ filepath.Join "/in/y" "A.epub" ∧
    (runAudiblezOnEpub (sampleEnv (fun _ => false) (fun _ => none) false true) sampleConfig
        movedBookSample
        { EpubPath := "/in/x/A.epub", BookName := "A.epub", SourceFolder := "/in/y",
          TargetFolder := "", Status := ProcessingState.New,
          TimeRemaining := 0, Progress := 0 }).2 = none := by
  refine ⟨by decide, by decide, by decide, by decide, by decide⟩

/-- C10. The two merges of a pass, applied a second time with the same two
scans, leave the registry exactly as the first application left it. -/
theorem reconcile_idempotent (booksMap : Registry) (inputScan outputScan : List String) :
    reconcile (reconcile booksMap inputScan outputScan) inputScan outputScan
      = reconcile booksMap inputScan outputScan := by
  funext key
  rw [reconcile_apply, reconcile_apply]
  cases hA : lastDir key inputScan with
  | none =>
    rw [mergeAt_of_none _ _ _ _ hA]
    cases hB : lastDir key outputScan with
    | none => simp only [mergeAt_of_none _ _ _ _ hA, mergeAt_of_none _ _ _ _ hB]
    | some dB =>
      simp only [mergeAt_of_none _ _ _ _ hA, mergeAt_of_some _ _ _ _ _ hB,
        Option.getD_some, setFolder_setFolder]
  | some dA =>
    rw [mergeAt_of_some _ _ _ _ _ hA]
    cases hB : lastDir key outputScan with
    | none =>
      simp only [mergeAt_of_none _ _ _ _ hB, mergeAt_of_some _ _ _ _ _ hA,
        Option.getD_some, setFolder_setFolder]
    | some dB =>
      simp only [mergeAt_of_some _ _ _ _ _ hB, mergeAt_of_some _ _ _ _ _ hA,
        Option.getD_some]
      simp [setFolder]

/-! ## Traversal -/

theorem traverse_unbounded (currentPath : String) (info : FsNode) (epubFiles : List String) :
    traverse (-1) currentPath info false epubFiles
      = (epubFiles ++ epubPaths [(currentPath, info)], none) := by
  by_cases hm : (!info.IsDir && strings.HasSuffix (strings.ToLower info.name) ".epub") = true
  · have hm2 := hm
    simp only [Bool.and_eq_true, Bool.not_eq_true_eq_eq_false] at hm2
    simp [traverse, epubPaths, hm2.1, hm2.2]
  · have hm2 : ¬ (info.IsDir = false ∧
        strings.HasSuffix (strings.ToLower info.name) ".epub" = true) := by
      simpa using hm
    simp [traverse, epubPaths, hm2]

theorem epubPaths_append (xs ys : List (String × FsNode)) :
    epubPaths (xs ++ ys) = epubPaths xs ++ epubPaths ys := by
  simp [epubPaths]

mutual
theorem walk_unbounded (path : String) (tree : FsNode) (acc : List String)
    (h : tree.readable = true) :
    walk (traverse (-1)) path tree acc = (acc ++ epubPaths (tree.entries path), none) := by
  match tree with
  | FsNode.file name => simp only [walk, FsNode.entries, traverse_unbounded]
  | FsNode.unreadableDir name => simp [FsNode.readable] at h
  | FsNode.lstatFails name => simp [FsNode.readable] at h
  | FsNode.dir name children =>
    have hc : readableAll children = true := by simpa [FsNode.readable] using h
    have hcons : (path, FsNode.dir name children) :: entriesIn path children
        = [(path, FsNode.dir name children)] ++ entriesIn path children := rfl
    simp only [walk, FsNode.entries, traverse_unbounded]
    rw [walkEntries_unbounded path children _ hc, hcons, epubPaths_append, List.append_assoc]
theorem walkEntries_unbounded (path : String) (children : List FsNode) (acc : List String)
    (h : readableAll children = true) :
    walkEntries (traverse (-1)) path children acc
      = (acc ++ epubPaths (entriesIn path children), none) := by
  match children with
  | [] => simp [walkEntries, entriesIn, epubPaths]
  | child :: rest =>
    have hboth : child.readable = true ∧ readableAll rest = true := by
      simpa [readableAll] using h
    simp only [walkEntries, entriesIn]
    rw [walk_unbounded _ child acc hboth.1]
    simp only []
    rw [walkEntries_unbounded path rest _ hboth.2, epubPaths_append, List.append_assoc]
end

/-- C6. With `TRAVERSAL_MAX_DEPTH = -1`, for every root path and every tree
under it that is read without error, `traverseAndFindEpub` returns, without
error, the paths of exactly the entries of the tree, at any depth, that are
no directory and whose lower-cased name ends in `.epub`. -/
theorem traverseAndFindEpub_unlimited (path : String) (tree : FsNode)
    (h : tree.readable = true) :
    traverseAndFindEpub (-1) path tree
      = some (((tree.entries path).filter
          (fun e => !e.2.IsDir && strings.HasSuffix (strings.ToLower e.2.name) ".epub")).map
            Prod.fst) ∧
    ∀ found, traverseAndFindEpub (-1) path tree = some found →
      ∀ q, q ∈ found ↔ ∃ info, (q, info) ∈ tree.entries path ∧ info.IsDir = false ∧
        strings.HasSuffix (strings.ToLower info.name) ".epub" = true := by
  have heq : traverseAndFindEpub (-1) path tree = some (epubPaths (tree.entries path)) := by
    simp [traverseAndFindEpub, Walk, walk_unbounded path tree [] h]
  refine ⟨heq, ?_⟩
  intro found hfound q
  rw [heq] at hfound
  cases hfound
  simp [epubPaths]

/-- C6 at a concrete tree: a book five directories below the root is found. -/
theorem traverseAndFindEpub_unlimited_witness :
    (FsNode.dir "in" [FsNode.dir "a" [FsNode.dir "b" [FsNode.dir "c" [FsNode.dir "d"
        [FsNode.file "Deep.EPUB", FsNode.file "notes.txt"]]]]]).readable = true ∧
    traverseAndFindEpub (-1) "/data/books/in"
      (FsNode.dir "in" [FsNode.dir "a" [FsNode.dir "b" [FsNode.dir "c" [FsNode.dir "d"
        [FsNode.file "Deep.EPUB", FsNode.file "notes.txt"]]]]])
      = some ["/data/books/in/a/b/c/d/Deep.EPUB"] := by
  refine ⟨by decide, ?_⟩
  rw [(traverseAndFindEpub_unlimited "/data/books/in" _ (by decide)).1]
  decide

/-- A root whose own path has more separators than the bound yields nothing,
whatever lies below it. -/
theorem traverseAndFindEpub_deep_root (TRAVERSAL_MAX_DEPTH : Int) (path : String)
    (tree : FsNode) (hbound : TRAVERSAL_MAX_DEPTH ≠ -1)
    (hdeep : (strings.Count path filepath.Separator : Int) > TRAVERSAL_MAX_DEPTH)
    (hroot : tree.readable = true) :
    traverseAndFindEpub TRAVERSAL_MAX_DEPTH path tree = some [] := by
  have hskip : ∀ info : FsNode, traverse TRAVERSAL_MAX_DEPTH path info false []
      = ([], some WalkError.SkipDir) := by
    intro info
    simp [traverse, hbound, hdeep]
  cases tree with
  | file name => simp [traverseAndFindEpub, Walk, walk, hskip]
  | dir name children => simp [traverseAndFindEpub, Walk, walk, hskip]
  | unreadableDir name => simp [FsNode.readable] at hroot
  | lstatFails name => simp [FsNode.readable] at hroot

/-- C5 fails on the code: the depth that `traverse` compares with the bound is
the number of separators of the whole path, those of the root included.  With
the default bound 3 and the root `/data/books/in`, the book `A.epub` directly
in the root (one separator below it) is not returned, while the same tree
under the root `in` yields it.  With the bound 0 and the root `.`, the book
directly in the root is returned although it lies one level below the root. -/
theorem traverseAndFindEpub_counts_root_separators :
    traverseAndFindEpub 3 "/data/books/in" (FsNode.dir "in" [FsNode.file "A.epub"]) = some [] ∧
    ((FsNode.dir "in" [FsNode.file "A.epub"]).entries "/data/books/in").map
        (fun e => (e.1, e.2.IsDir, e.2.name))
      = [("/data/books/in", true, "in"), ("/data/books/in/A.epub", false, "A.epub")] ∧
    strings.Count "/data/books/in/A.epub" filepath.Separator = 4 ∧
    traverseAndFindEpub 3 "in" (FsNode.dir "in" [FsNode.file "A.epub"]) = some ["in/A.epub"] ∧
    traverseAndFindEpub 0 "." (FsNode.dir "." [FsNode.file "A.epub"]) = some ["A.epub"] := by
  refine ⟨by decide, by decide, by decide, by decide, by decide⟩

/-! ## Processing -/

/-- C8 fails on the code for the output root `/data/out`.  The conversion
command exits non-zero; `runAudiblezOnEpub` still returns the staging folder
and `processBooks` leaves the book at `/data/out/N/N.epub` and removes the
staging folder.  In the next pass the walk of `/data/out` with the default
bound 3 does not return that file, because its path has four separators; so
the book is still `New` after the merges and `processBooks` runs it again. -/
theorem failed_conversion_is_retried :
    sampleBooks "N.epub"
      = some { Book.zero with EpubPath := "/data/in/N.epub", BookName := "N.epub",
                              SourceFolder := "/data/in", Status := ProcessingState.New } ∧
    (runAudiblezOnEpub (sampleEnv (fun _ => false) (fun _ => none) false false) sampleConfig
        sampleWorld
        { Book.zero with EpubPath := "/data/in/N.epub", BookName := "N.epub",
                         SourceFolder := "/data/in", Status := ProcessingState.New }).2
      = some sampleStaging ∧
    (processBooks (sampleEnv (fun _ => false) (fun _ => none) false false) sampleConfig
        sampleBooks ["N.epub"] sampleWorld).fs.files "/data/out/N/N.epub" = some [1, 2, 3] ∧
    (processBooks (sampleEnv (fun _ => false) (fun _ => none) false false) sampleConfig
        sampleBooks ["N.epub"] sampleWorld).fs.dirs sampleStaging = false ∧
    filepath.Join (filepath.Join "/data/out" (bookNameOf "N.epub")) "N.epub"
      = "/data/out/N/N.epub" ∧
    traverseAndFindEpub 3 "/data/out"
        (FsNode.dir "out" [FsNode.dir "N" [FsNode.file "N.epub"]]) = some [] ∧
    traverseAndFindEpub 3 "/data/in" (FsNode.dir "in" [FsNode.file "N.epub"])
      = some ["/data/in/N.epub"] ∧
    (reconcile sampleBooks ["/data/in/N.epub"] [] "N.epub").map Book.Status
      = some ProcessingState.New ∧
    (processBooks (sampleEnv (fun _ => false) (fun _ => none) false false) sampleConfig
        (reconcile sampleBooks ["/data/in/N.epub"] []) ["N.epub"]
        (processBooks (sampleEnv (fun _ => false) (fun _ => none) false false) sampleConfig
          sampleBooks ["N.epub"] sampleWorld)).clock = 2 := by
  refine ⟨by decide, by decide, by decide, by decide, by decide, by decide, by decide,
    by decide, by decide⟩

theorem os.isUnder_self (path : String) : os.isUnder path path = true := by
  simp [os.isUnder]

/-- When `runAudiblezOnEpub` returns a staging folder, the body of the loop of
`processBooks` ends with that folder removed. -/
theorem processBook_removes_returned_folder (env : Env) (cfg : Config) (books : Registry)
    (w w1 : World) (epub : String) (book : Book) (folder : String)
    (hbook : books epub = some book) (hnew : book.Status = ProcessingState.New)
    (hrun : runAudiblezOnEpub env cfg w book = (w1, some folder)) :
    (processBook env cfg books w epub).fs.dirs folder = false ∧
    (processBook env cfg books w epub).fs.files folder = none := by
  simp [processBook, hbook, hnew, hrun, os.RemoveAll, os.isUnder_self]

/-- C9 fails on the code.  When creating the staged `book.epub` fails, when
copying into it breaks off, and when the conversion command cannot be started,
`runAudiblezOnEpub` returns its error after the staging folder was made, and
`processBooks` goes on to the next book without removing it: the folder is
still there when `processBooks` is done.  When the command starts and exits
non-zero the folder is removed. -/
theorem staging_folder_left_behind :
    (processBooks
        (sampleEnv (fun q => q = sampleStaging ++ "/book.epub") (fun _ => none) false true)
        sampleConfig sampleBooks ["N.epub"] sampleWorld).fs.dirs sampleStaging = true ∧
    (processBooks
        (sampleEnv (fun _ => false)
          (fun q => if q = sampleStaging ++ "/book.epub" then some 1 else none) false true)
        sampleConfig sampleBooks ["N.epub"] sampleWorld).fs.dirs sampleStaging = true ∧
    (processBooks (sampleEnv (fun _ => false) (fun _ => none) true true)
        sampleConfig sampleBooks ["N.epub"] sampleWorld).fs.dirs sampleStaging = true ∧
    sampleWorld.fs.dirs sampleStaging = false ∧
    (processBooks (sampleEnv (fun _ => false) (fun _ => none) false false)
        sampleConfig sampleBooks ["N.epub"] sampleWorld).fs.dirs sampleStaging = false := by
  refine ⟨by decide, by decide, by decide, by decide, by decide⟩

/-! ## Relocation -/

theorem os.Create_files (env : Env) (fs fs1 : FileSystem) (path : String)
    (h : os.Create env fs path = some fs1) :
    fs1.files = Function.update fs.files path (some []) := by
  unfold os.Create at h
  split_ifs at h
  cases h
  rfl

theorem os.Copy_files_other (env : Env) (fs : FileSystem) (destination source q : String)
    (hq : q ≠ destination) :
    (os.Copy env fs destination source).1.files q = fs.files q := by
  unfold os.Copy
  cases fs.files source with
  | none => rfl
  | some bytes =>
    cases env.copyFault destination <;> simp [Function.update, hq]

theorem os.Copy_files_destination (env : Env) (fs0 fs : FileSystem)
    (destination source : String) (hne : source ≠ destination)
    (hfiles : fs.files = Function.update fs0.files destination (some [])) :
    (os.Copy env fs destination source).1.files destination
      = some (copiedBytes env fs0 source destination) := by
  have hsrc : fs.files source = fs0.files source := by
    rw [hfiles]
    simp [Function.update, hne]
  unfold os.Copy copiedBytes
  rw [hsrc]
  cases fs0.files source with
  | none => simp [hfiles]
  | some bytes =>
    cases env.copyFault destination <;> simp

theorem os.Copy_destination_isSome (env : Env) (fs : FileSystem)
    (destination source : String) (h : (fs.files destination).isSome = true) :
    ((os.Copy env fs destination source).1.files destination).isSome = true := by
  unfold os.Copy
  cases fs.files source with
  | none => exact h
  | some bytes =>
    cases env.copyFault destination <;> simp

theorem moveFilesLoop_excluded (env : Env) (srcDir destDir : String)
    (excludeExtensions : List String) (n : String) (rest : List String) (fs : FileSystem)
    (hex : excludeExtensions.contains (filepath.Ext (filepath.Join srcDir n)) = true) :
    moveFilesLoop env srcDir destDir excludeExtensions (n :: rest) fs
      = moveFilesLoop env srcDir destDir excludeExtensions rest fs := by
  rw [moveFilesLoop]
  simp only [hex, if_true]

theorem moveFilesLoop_createFails (env : Env) (srcDir destDir : String)
    (excludeExtensions : List String) (n : String) (rest : List String) (fs : FileSystem)
    (hkept : excludeExtensions.contains (filepath.Ext (filepath.Join srcDir n)) = false)
    (hc : os.Create env fs (filepath.Join destDir n) = none) :
    moveFilesLoop env srcDir destDir excludeExtensions (n :: rest) fs = (fs, true) := by
  rw [moveFilesLoop]
  simp only [hkept, hc, Bool.false_eq_true, if_false]

theorem moveFilesLoop_openFails (env : Env) (srcDir destDir : String)
    (excludeExtensions : List String) (n : String) (rest : List String) (fs fs1 : FileSystem)
    (hkept : excludeExtensions.contains (filepath.Ext (filepath.Join srcDir n)) = false)
    (hc : os.Create env fs (filepath.Join destDir n) = some fs1)
    (ho : os.Open env fs1 (filepath.Join srcDir n) = false) :
    moveFilesLoop env srcDir destDir excludeExtensions (n :: rest) fs = (fs1, true) := by
  rw [moveFilesLoop]
  simp only [hkept, hc, ho, Bool.false_eq_true, if_false, if_true]

theorem moveFilesLoop_copies (env : Env) (srcDir destDir : String)
    (excludeExtensions : List String) (n : String) (rest : List String) (fs fs1 : FileSystem)
    (hkept : excludeExtensions.contains (filepath.Ext (filepath.Join srcDir n)) = false)
    (hc : os.Create env fs (filepath.Join destDir n) = some fs1)
    (ho : os.Open env fs1 (filepath.Join srcDir n) = true) :
    moveFilesLoop env srcDir destDir excludeExtensions (n :: rest) fs
      = moveFilesLoop env srcDir destDir excludeExtensions rest
          (os.Copy env fs1 (filepath.Join destDir n) (filepath.Join srcDir n)).1 := by
  rw [moveFilesLoop]
  simp only [hkept, hc, ho, Bool.false_eq_true, if_false, if_true]

/-- The loop touches no path but the destination paths of the entries it keeps. -/
theorem moveFilesLoop_files_other (env : Env) (srcDir destDir : String)
    (excludeExtensions : List String) (names : List String) (fs : FileSystem) (q : String)
    (hq : ∀ n ∈ names,
      excludeExtensions.contains (filepath.Ext (filepath.Join srcDir n)) = false →
        filepath.Join destDir n ≠ q) :
    (moveFilesLoop env srcDir destDir excludeExtensions names fs).1.files q = fs.files q := by
  induction names generalizing fs with
  | nil => rfl
  | cons n rest ih =>
    have hrest : ∀ m ∈ rest,
        excludeExtensions.contains (filepath.Ext (filepath.Join srcDir m)) = false →
          filepath.Join destDir m ≠ q := fun m hm => hq m (List.mem_cons_of_mem _ hm)
    cases hkept : excludeExtensions.contains (filepath.Ext (filepath.Join srcDir n)) with
    | true =>
      rw [moveFilesLoop_excluded _ _ _ _ _ _ _ hkept]
      exact ih fs hrest
    | false =>
      have hne : q ≠ filepath.Join destDir n := Ne.symm (hq n (List.mem_cons_self _ _) hkept)
      cases hc : os.Create env fs (filepath.Join destDir n) with
      | none => rw [moveFilesLoop_createFails _ _ _ _ _ _ _ hkept hc]
      | some fs1 =>
        have hf1 : fs1.files q = fs.files q := by
          rw [os.Create_files env fs fs1 _ hc]
          simp [Function.update, hne]
        cases ho : os.Open env fs1 (filepath.Join srcDir n) with
        | true =>
          rw [moveFilesLoop_copies _ _ _ _ _ _ _ _ hkept hc ho, ih _ hrest,
            os.Copy_files_other env fs1 _ _ q hne, hf1]
        | false =>
          rw [moveFilesLoop_openFails _ _ _ _ _ _ _ _ hkept hc ho]
          exact hf1

/-- When the loop ends without error, every kept entry has a file at its
destination path. -/
theorem moveFilesLoop_present (env : Env) (srcDir destDir : String)
    (excludeExtensions : List String) (names : List String) (fs : FileSystem)
    (hok : (moveFilesLoop env srcDir destDir excludeExtensions names fs).2 = false)
    (n : String) (hn : n ∈ names)
    (hkept : excludeExtensions.contains (filepath.Ext (filepath.Join srcDir n)) = false) :
    ((moveFilesLoop env srcDir destDir excludeExtensions names fs).1.files
      (filepath.Join destDir n)).isSome = true := by
  induction names generalizing fs n with
  | nil => cases hn
  | cons n0 rest ih =>
    cases hk0 : excludeExtensions.contains (filepath.Ext (filepath.Join srcDir n0)) with
    | true =>
      rw [moveFilesLoop_excluded _ _ _ _ _ _ _ hk0] at hok ⊢
      rcases List.mem_cons.mp hn with h0 | h0
      · subst h0
        rw [hk0] at hkept
        cases hkept
      · exact ih fs hok n h0 hkept
    | false =>
      cases hc : os.Create env fs (filepath.Join destDir n0) with
      | none =>
        rw [moveFilesLoop_createFails _ _ _ _ _ _ _ hk0 hc] at hok
        cases hok
      | some fs1 =>
        cases ho : os.Open env fs1 (filepath.Join srcDir n0) with
        | false =>
          rw [moveFilesLoop_openFails _ _ _ _ _ _ _ _ hk0 hc ho] at hok
          cases hok
        | true =>
          rw [moveFilesLoop_copies _ _ _ _ _ _ _ _ hk0 hc ho] at hok ⊢
          by_cases hlater : ∃ m ∈ rest,
              excludeExtensions.contains (filepath.Ext (filepath.Join srcDir m)) = false ∧
                filepath.Join destDir m = filepath.Join destDir n
          · obtain ⟨m, hm, hmk, hmeq⟩ := hlater
            rw [← hmeq]
            exact ih _ hok m hm hmk
          · have hn0 : n = n0 := by
              rcases List.mem_cons.mp hn with h0 | h0
              · exact h0
              · exact absurd ⟨n, h0, hkept, rfl⟩ hlater
            subst hn0
            rw [moveFilesLoop_files_other env srcDir destDir excludeExtensions rest _ _
              (fun m hm hmk hmeq => hlater ⟨m, hm, hmk, hmeq⟩)]
            apply os.Copy_destination_isSome
            rw [os.Create_files env fs fs1 _ hc]
            simp

/-- When the loop ends without error, the destination file of a kept entry
holds what the copy of that entry wrote. -/
theorem moveFilesLoop_content (env : Env) (srcDir destDir : String)
    (excludeExtensions : List String) (names : List String) (fs : FileSystem)
    (hok : (moveFilesLoop env srcDir destDir excludeExtensions names fs).2 = false)
    (hvalid : ∀ m ∈ names, validName m = true) (hnodup : names.Nodup)
    (n : String) (hn : n ∈ names)
    (hkept : excludeExtensions.contains (filepath.Ext (filepath.Join srcDir n)) = false)
    (hdisj : ∀ m ∈ names, filepath.Join destDir m ≠ filepath.Join srcDir n) :
    (moveFilesLoop env srcDir destDir excludeExtensions names fs).1.files
        (filepath.Join destDir n)
      = some (copiedBytes env fs (filepath.Join srcDir n) (filepath.Join destDir n)) := by
  induction names generalizing fs with
  | nil => cases hn
  | cons n0 rest ih =>
    have hvrest : ∀ m ∈ rest, validName m = true :=
      fun m hm => hvalid m (List.mem_cons_of_mem _ hm)
    have hdrest : ∀ m ∈ rest, filepath.Join destDir m ≠ filepath.Join srcDir n :=
      fun m hm => hdisj m (List.mem_cons_of_mem _ hm)
    have hnd := List.nodup_cons.mp hnodup
    cases hk0 : excludeExtensions.contains (filepath.Ext (filepath.Join srcDir n0)) with
    | true =>
      rw [moveFilesLoop_excluded _ _ _ _ _ _ _ hk0] at hok ⊢
      rcases List.mem_cons.mp hn with h0 | h0
      · subst h0
        rw [hk0] at hkept
        cases hkept
      · exact ih fs hok hvrest hnd.2 h0 hdrest
    | false =>
      cases hc : os.Create env fs (filepath.Join destDir n0) with
      | none =>
        rw [moveFilesLoop_createFails _ _ _ _ _ _ _ hk0 hc] at hok
        cases hok
      | some fs1 =>
        have hfiles := os.Create_files env fs fs1 _ hc
        cases ho : os.Open env fs1 (filepath.Join srcDir n0) with
        | false =>
          rw [moveFilesLoop_openFails _ _ _ _ _ _ _ _ hk0 hc ho] at hok
          cases hok
        | true =>
          rw [moveFilesLoop_copies _ _ _ _ _ _ _ _ hk0 hc ho] at hok ⊢
          rcases List.mem_cons.mp hn with h0 | h0
          · subst h0
            have hother : ∀ m ∈ rest,
                excludeExtensions.contains (filepath.Ext (filepath.Join srcDir m)) = false →
                  filepath.Join destDir m ≠ filepath.Join destDir n := by
              intro m hm _ hmeq
              have : m = n := filepath.Join_injective destDir m n (hvrest m hm)
                (hvalid n (List.mem_cons_self _ _)) hmeq
              exact hnd.1 (this ▸ hm)
            rw [moveFilesLoop_files_other env srcDir destDir excludeExtensions rest _ _ hother]
            exact os.Copy_files_destination env fs fs1 _ _
              (Ne.symm (hdisj n (List.mem_cons_self _ _))) hfiles
          · have hsame : copiedBytes env
                (os.Copy env fs1 (filepath.Join destDir n0) (filepath.Join srcDir n0)).1
                (filepath.Join srcDir n) (filepath.Join destDir n)
                = copiedBytes env fs (filepath.Join srcDir n) (filepath.Join destDir n) := by
              have hsrc : (os.Copy env fs1 (filepath.Join destDir n0)
                  (filepath.Join srcDir n0)).1.files (filepath.Join srcDir n)
                  = fs.files (filepath.Join srcDir n) := by
                have hne : filepath.Join srcDir n ≠ filepath.Join destDir n0 :=
                  Ne.symm (hdisj n0 (List.mem_cons_self _ _))
                rw [os.Copy_files_other env fs1 _ _ _ hne, hfiles]
                simp [Function.update, hne]
              simp only [copiedBytes, hsrc]
            rw [ih _ hok hvrest hnd.2 h0 hdrest, hsame]

theorem os.MkdirAll_files (env : Env) (fs fs1 : FileSystem) (path : String)
    (h : os.MkdirAll env fs path = some fs1) : fs1.files = fs.files := by
  unfold os.MkdirAll at h
  split_ifs at h
  cases h
  rfl

theorem contains_eq_false_iff (excludeExtensions : List String) (ext : String) :
    excludeExtensions.contains ext = false ↔ ext ∉ excludeExtensions := by
  simp

theorem relocationSample_destination_empty (n : String) (h : validName n = true) :
    relocationSample.files (filepath.Join "/data/out/x" n) = none := by
  have hhead : joinHead "/data/out/x" = "/data/out/x/".data := by decide
  have hsecond : (filepath.Join "/data/out/x" n).data.get? 1 = some 'd' := by
    rw [filepath.Join_data _ _ h, hhead]
    rfl
  have hne : ∀ q : String, q.data.get? 1 = some 't' → filepath.Join "/data/out/x" n ≠ q := by
    intro q hq heq
    rw [heq, hq] at hsecond
    revert hsecond
    decide
  simp only [relocationSample]
  rw [if_neg (hne _ (by decide)), if_neg (hne _ (by decide)), if_neg (hne _ (by decide))]

/-- C7 fails on the code.  The staging folder lists `x.mp3`, `x.txt` and
`x.wav`, the destination is empty, and `io.Copy` into `/data/out/x/x.mp3`
breaks off after one byte.  `moveFiles` does not check the error of `io.Copy`:
it returns without error, and the destination file of the regular file `x.mp3`
holds one byte, not the three bytes of the source.  The same failure of
`io.Copy` in `runAudiblezOnEpub` is checked and gives the error return. -/
theorem moveFiles_ignores_copy_error :
    (sampleEnv (fun _ => false)
        (fun q => if q = "/data/out/x/x.mp3" then some 1 else none) false true).readDir
      relocationSample sampleStaging = some ["x.mp3", "x.txt", "x.wav"] ∧
    (∀ n, validName n = true →
      relocationSample.files (filepath.Join "/data/out/x" n) = none) ∧
    (moveFiles (sampleEnv (fun _ => false)
        (fun q => if q = "/data/out/x/x.mp3" then some 1 else none) false true)
      relocationSample sampleStaging "/data/out/x" [".wav", ".txt"]).2 = false ∧
    filepath.Ext "x.mp3" ∉ [".wav", ".txt"] ∧
    relocationSample.files (filepath.Join sampleStaging "x.mp3") = some [1, 2, 3] ∧
    (moveFiles (sampleEnv (fun _ => false)
        (fun q => if q = "/data/out/x/x.mp3" then some 1 else none) false true)
      relocationSample sampleStaging "/data/out/x" [".wav", ".txt"]).1.files
        (filepath.Join "/data/out/x" "x.mp3") = some [1] ∧
    (runAudiblezOnEpub (sampleEnv (fun _ => false)
        (fun q => if q = sampleStaging ++ "/book.epub" then some 1 else none) false true)
      sampleConfig sampleWorld
      { Book.zero with EpubPath := "/data/in/N.epub", BookName := "N.epub",
                       SourceFolder := "/data/in", Status := ProcessingState.New }).2
      = none := by
  refine ⟨by decide, relocationSample_destination_empty, by decide, by decide, by decide,
    by decide, by decide⟩

/-- What `moveFiles` does when it returns without error.  The source directory
lists `names` (entry names as `os.ReadDir` yields them, each once), and the
destination directory holds no file.  Then the destination holds a file under
an entry name exactly for the listed entries whose extension is not in the
exclusion list; for such an entry that is a regular file the destination file
has the same contents when `io.Copy` did not fail, and only the bytes written
until then when it did. -/
theorem moveFiles_relocates (env : Env) (fs : FileSystem) (srcDir destDir : String)
    (excludeExtensions names : List String)
    (hread : env.readDir fs srcDir = some names)
    (hvalid : ∀ n ∈ names, validName n = true)
    (hnodup : names.Nodup)
    (hempty : ∀ n, validName n = true → fs.files (filepath.Join destDir n) = none)
    (hok : (moveFiles env fs srcDir destDir excludeExtensions).2 = false) :
    (∀ n, validName n = true →
      (((moveFiles env fs srcDir destDir excludeExtensions).1.files
          (filepath.Join destDir n)).isSome = true ↔
        n ∈ names ∧ filepath.Ext n ∉ excludeExtensions)) ∧
    (∀ n ∈ names, filepath.Ext n ∉ excludeExtensions →
      ∀ bytes, fs.files (filepath.Join srcDir n) = some bytes →
        (env.copyFault (filepath.Join destDir n) = none →
          (moveFiles env fs srcDir destDir excludeExtensions).1.files
            (filepath.Join destDir n) = some bytes) ∧
        (∀ k, env.copyFault (filepath.Join destDir n) = some k →
          (moveFiles env fs srcDir destDir excludeExtensions).1.files
            (filepath.Join destDir n) = some (bytes.take k))) := by
  unfold moveFiles at hok ⊢
  rw [hread] at hok ⊢
  cases hm : os.MkdirAll env fs destDir with
  | none =>
    rw [hm] at hok
    cases hok
  | some fs1 =>
    rw [hm] at hok
    simp only [] at hok ⊢
    have hfiles := os.MkdirAll_files env fs fs1 _ hm
    have hkept : ∀ n, validName n = true → filepath.Ext n ∉ excludeExtensions →
        excludeExtensions.contains (filepath.Ext (filepath.Join srcDir n)) = false := by
      intro n hv hext
      rw [filepath.Ext_Join _ _ hv]
      exact (contains_eq_false_iff _ _).mpr hext
    constructor
    · intro n hv
      constructor
      · intro hsome
        by_contra hnot
        have hother : ∀ m ∈ names,
            excludeExtensions.contains (filepath.Ext (filepath.Join srcDir m)) = false →
              filepath.Join destDir m ≠ filepath.Join destDir n := by
          intro m hm2 hmk hmeq
          have hmn : m = n := filepath.Join_injective destDir m n (hvalid m hm2) hv hmeq
          subst hmn
          rw [filepath.Ext_Join _ _ hv] at hmk
          exact hnot ⟨hm2, (contains_eq_false_iff _ _).mp hmk⟩
        rw [moveFilesLoop_files_other env srcDir destDir excludeExtensions names fs1 _ hother,
          hfiles, hempty n hv] at hsome
        cases hsome
      · rintro ⟨hn, hext⟩
        exact moveFilesLoop_present env srcDir destDir excludeExtensions names fs1 hok n hn
          (hkept n hv hext)
    · intro n hn hext bytes hbytes
      have hdisj : ∀ m ∈ names, filepath.Join destDir m ≠ filepath.Join srcDir n := by
        intro m hm2 heq
        have h1 := hempty m (hvalid m hm2)
        rw [heq, hbytes] at h1
        cases h1
      have hcontent := moveFilesLoop_content env srcDir destDir excludeExtensions names fs1
        hok hvalid hnodup n hn (hkept n (hvalid n hn) hext) hdisj
      rw [hcontent]
      simp only [copiedBytes, hfiles, hbytes]
      constructor
      · intro hnone
        rw [hnone]
      · intro k hk
        rw [hk]

/-- The scenario of the specification, without a failing copy: with the exclusions
`.wav` and `.txt` and a staging folder holding `x.wav`, `x.txt` and `x.mp3`,
only `x.mp3` is in the destination, with its contents. -/
theorem moveFiles_relocates_witness :
    (∀ n, validName n = true →
      (((moveFiles (sampleEnv (fun _ => false) (fun _ => none) false true) relocationSample
          sampleStaging "/data/out/x" [".wav", ".txt"]).1.files
            (filepath.Join "/data/out/x" n)).isSome = true ↔
        n ∈ ["x.mp3", "x.txt", "x.wav"] ∧ filepath.Ext n ∉ [".wav", ".txt"])) ∧
    (moveFiles (sampleEnv (fun _ => false) (fun _ => none) false true) relocationSample
        sampleStaging "/data/out/x" [".wav", ".txt"]).1.files
          (filepath.Join "/data/out/x" "x.mp3") = some [1, 2, 3] :=
  have h := moveFiles_relocates (sampleEnv (fun _ => false) (fun _ => none) false true)
    relocationSample sampleStaging "/data/out/x" [".wav", ".txt"] ["x.mp3", "x.txt", "x.wav"]
    (by decide) (by decide) (by decide) relocationSample_destination_empty (by decide)
  ⟨h.1, (h.2 "x.mp3" (by decide) (by decide) [1, 2, 3] (by decide)).1 (by decide)⟩

end AudiobookConverter
